import Mathlib

/-!
# tmctl: manifest store, object builder and flag extraction

A shallow embedding of

* `pkg/kubernetes/object.go`  (`Object`, `Metadata`, `CreateObject`, `getObjectCRD`),
* `pkg/manifest/manifest.go`  (`Manifest`, `New`, `Read`, `Write`, `Add`, `parseYAML`,
  `readFile`, `matchObjects`),
* `cmd/create/target.go`      (`parameterFromArgs`),

followed by the properties proved about them.

Conventions.  A Go `error` is an `Option Error` (`none` is `nil`); a Go pointer result
is an `Option`; a run-time panic is the `none` of an outer `Option`.  A slice or map
held in an `interface{}` carries the address of its storage, which a struct copy
shares, and `reflect.DeepEqual` is the function `reflect.DeepEqual` below.
-/

namespace Tmctl

/-! ## Errors -/

/-- Go `error` values: `io.EOF`, an error created from a message, and the result of
`fmt.Errorf("<ctx>: %w", cause)`, which keeps `cause` as its wrapped error. -/
inductive Error where
  | EOF
  | msg (text : String)
  | wrap (ctx : String) (cause : Error)
  deriving DecidableEq, Repr

/-- The error `errors.Unwrap` returns. -/
def Error.Unwrap : Error → Option Error
  | .wrap _ cause => some cause
  | _ => none

/-! ## `pkg/kubernetes`: the object model -/

namespace kubernetes

/-- The Go integer types, as dynamic types of an `interface{}`. -/
inductive IntKind where
  | int | int8 | int16 | int32 | int64 | uint | uint8 | uint16 | uint32 | uint64
  deriving DecidableEq

mutual
/-- A value of type `interface{}` as YAML decoding and flag parsing build it: the nil
interface, or a value with its dynamic type: `bool`, an integer type, `float64` (by
its IEEE 754 bits), `string`, `[]interface{}` or `map[string]interface{}`. -/
inductive Value where
  | nil
  | bool (b : Bool)
  | int (kind : IntKind) (i : Int)
  | float64 (bits : Nat)
  | str (s : String)
  | slice (s : SliceValue)
  | map (m : MapValue)
  deriving DecidableEq
/-- A value of type `[]interface{}`: the nil slice, or the address of its first element
and its elements. -/
inductive SliceValue where
  | nil
  | mk (ptr : Nat) (items : ValueList)
  deriving DecidableEq
/-- The elements of a slice. -/
inductive ValueList where
  | nil
  | cons (head : Value) (tail : ValueList)
  deriving DecidableEq
/-- A value of type `map[string]interface{}`: the nil map, or the address of the map and
its entries. -/
inductive MapValue where
  | nil
  | mk (ptr : Nat) (entries : ValueEntries)
  deriving DecidableEq
/-- The entries of a map, one for each key. -/
inductive ValueEntries where
  | nil
  | cons (key : String) (value : Value) (tail : ValueEntries)
  deriving DecidableEq
end

/-- The struct `Metadata`.  `Labels = none` is the nil map; the entries of a non-nil
map are held sorted by key, so that `reflect.DeepEqual` of two `map[string]string`
values is equality of the two fields. -/
structure Metadata where
  Name : String
  Labels : Option (List (String × String))
  deriving DecidableEq

/-- The struct `Object`. -/
structure Object where
  APIVersion : String
  Kind : String
  Metadata : Metadata
  Spec : MapValue
  deriving DecidableEq

/-- The constant `labelKey`. -/
def labelKey : String := "triggermesh.io/context"

end kubernetes

/-! ## `reflect.DeepEqual`

The standard-library function `manifest.go` calls, on the values above. -/

namespace reflect

open kubernetes

/-- The method `Len` of a slice. -/
def ValueList.Len : ValueList → Nat
  | ValueList.nil => 0
  | ValueList.cons _ tail => ValueList.Len tail + 1

/-- The method `Len` of a map. -/
def ValueEntries.Len : ValueEntries → Nat
  | ValueEntries.nil => 0
  | ValueEntries.cons _ _ tail => ValueEntries.Len tail + 1

/-- The method `MapIndex`: the value stored under `k`, if any. -/
def MapIndex (k : String) : ValueEntries → Option Value
  | ValueEntries.nil => none
  | ValueEntries.cons key value tail => if key = k then some value else MapIndex k tail

/-- Whether the bits are those of a NaN: exponent all ones, fraction not zero. -/
def isNaN (bits : Nat) : Bool :=
  (bits / 2 ^ 52) % 2 ^ 11 == 2047 && bits % 2 ^ 52 != 0

/-- Whether the bits are those of `+0` or `-0`. -/
def isZero (bits : Nat) : Bool :=
  bits % 2 ^ 63 == 0

/-- The Go comparison `==` of two `float64` values given by their bits: a NaN equals
nothing, the two zeros are equal, and any other value has one bit pattern. -/
def float64Eq (a b : Nat) : Bool :=
  !(isNaN a) && !(isNaN b) && (a == b || (isZero a && isZero b))

mutual
/-- The function `deepValueEqual` on two `interface{}` values: both nil, or of the same
dynamic type and equal by the rule of that type. -/
def deepValueEqual (a b : Value) : Bool :=
  match a with
  | Value.nil => (match b with | Value.nil => true | _ => false)
  | Value.bool x => (match b with | Value.bool y => x == y | _ => false)
  | Value.int k x => (match b with | Value.int l y => k == l && x == y | _ => false)
  | Value.float64 x => (match b with | Value.float64 y => float64Eq x y | _ => false)
  | Value.str x => (match b with | Value.str y => x == y | _ => false)
  | Value.slice x => (match b with | Value.slice y => sliceEqual x y | _ => false)
  | Value.map x => (match b with | Value.map y => mapEqual x y | _ => false)
termination_by structural a
/-- The case `Slice` of `deepValueEqual`: the same nil-ness and length, and then the same
storage or equal elements. -/
def sliceEqual (a b : SliceValue) : Bool :=
  match a with
  | SliceValue.nil => (match b with | SliceValue.nil => true | _ => false)
  | SliceValue.mk p xs =>
    match b with
    | SliceValue.nil => false
    | SliceValue.mk q ys =>
      if ValueList.Len xs != ValueList.Len ys then false
      else if p == q then true
      else elemsEqual xs ys
termination_by structural a
/-- The element loop of the case `Slice`, on slices of one length. -/
def elemsEqual (a b : ValueList) : Bool :=
  match a with
  | ValueList.nil => true
  | ValueList.cons x xs =>
    match b with
    | ValueList.nil => false
    | ValueList.cons y ys => deepValueEqual x y && elemsEqual xs ys
termination_by structural a
/-- The case `Map` of `deepValueEqual`: the same nil-ness and length, and then the same
map or, for each key of the first, an equal value in the second. -/
def mapEqual (a b : MapValue) : Bool :=
  match a with
  | MapValue.nil => (match b with | MapValue.nil => true | _ => false)
  | MapValue.mk p xs =>
    match b with
    | MapValue.nil => false
    | MapValue.mk q ys =>
      if ValueEntries.Len xs != ValueEntries.Len ys then false
      else if p == q then true
      else entriesEqual xs ys
termination_by structural a
/-- The key loop of the case `Map`: each entry of the first map against the second. -/
def entriesEqual (a other : ValueEntries) : Bool :=
  match a with
  | ValueEntries.nil => true
  | ValueEntries.cons k v tail =>
    match MapIndex k other with
    | none => false
    | some w => deepValueEqual v w && entriesEqual tail other
termination_by structural a
end

/-- The function `reflect.DeepEqual` on two values of type `kubernetes.Object`: field by
field, in the order of the struct. -/
def DeepEqual (a b : Object) : Bool :=
  a.APIVersion == b.APIVersion &&
    a.Kind == b.Kind &&
    (a.Metadata.Name == b.Metadata.Name && a.Metadata.Labels == b.Metadata.Labels) &&
    mapEqual a.Spec b.Spec

end reflect

/-! ## `pkg/triggermesh/crd` and `pkg/openapi`: what `object.go` uses of them

These packages are imported by `object.go`.  The resource definition is the record
`getObjectCRD` and `CreateObject` read; the raw spec schema of a version has the type
parameter `P`; a `*openapi.Schema` is given by its two methods; the functions
`crd.GetResourceCRD` and `openapi.GetSchema` are parameters of the functions that
call them. -/

namespace crd

/-- The field `Spec.Names` of a resource definition. -/
structure Names where
  Kind : String

/-- The field `Schema.OpenAPIV3Schema.Properties` of a version. -/
structure Properties (P : Type) where
  Spec : P

/-- The field `Schema.OpenAPIV3Schema` of a version. -/
structure OpenAPIV3Schema (P : Type) where
  Properties : Properties P

/-- The field `Schema` of a version. -/
structure VersionSchema (P : Type) where
  OpenAPIV3Schema : OpenAPIV3Schema P

/-- One entry of `Spec.Versions`. -/
structure Version (P : Type) where
  Name : String
  Served : Bool
  Schema : VersionSchema P

/-- The field `Spec` of a resource definition. -/
structure Spec (P : Type) where
  Group : String
  Names : Names
  Versions : List (Version P)

/-- The type `crd.CRD`. -/
structure CRD (P : Type) where
  Spec : Spec P

end crd

namespace openapi

/-- The methods of a `*openapi.Schema` that `CreateObject` calls: `Process` returns the
normalized spec and an error, `Validate` returns an error. -/
structure Schema where
  Process : kubernetes.MapValue → kubernetes.MapValue × Option Error
  Validate : kubernetes.MapValue → Option Error

end openapi

namespace kubernetes

/-- The `for _, v := range crdObject.Spec.Versions` loop of `getObjectCRD` and the
return after it. -/
def getObjectCRD.loop {P : Type} (GetSchema : P → Option openapi.Schema × Option Error) :
    List (crd.Version P) → Option openapi.Schema × String × Option Error
  | [] => (none, "", some (Error.msg "CRD schema not found"))
  | v :: rest =>
    if v.Served then
      match GetSchema v.Schema.OpenAPIV3Schema.Properties.Spec with
      | (_, some err) => (none, "", some (Error.wrap "CRD schema" err))
      | (schema, none) => (schema, v.Name, none)
    else
      getObjectCRD.loop GetSchema rest

/-- The function `getObjectCRD`. -/
def getObjectCRD {P : Type} (GetSchema : P → Option openapi.Schema × Option Error)
    (crdObject : crd.CRD P) : Option openapi.Schema × String × Option Error :=
  getObjectCRD.loop GetSchema crdObject.Spec.Versions

/-- The function `CreateObject`.  The outer `none` is the nil dereference of
`schema.Process` on a nil schema returned without an error. -/
def CreateObject {P : Type}
    (GetResourceCRD : String → String → crd.CRD P × Option Error)
    (GetSchema : P → Option openapi.Schema × Option Error)
    (resource name broker crdFile : String) (spec : MapValue) :
    Option (Option Object × Option Error) :=
  match GetResourceCRD resource crdFile with
  | (_, some err) => some (none, some (Error.wrap "CRD schema not found" err))
  | (crdObject, none) =>
    match getObjectCRD GetSchema crdObject with
    | (_, _, some err) => some (none, some (Error.wrap "object schema" err))
    | (none, _, none) => none
    | (some schema, version, none) =>
      match schema.Process spec with
      | (_, some err) => some (none, some (Error.wrap "spec processing" err))
      | (spec, none) =>
        match schema.Validate spec with
        | some err => some (none, some (Error.wrap "CR validation" err))
        | none =>
          some (some
            { APIVersion := crdObject.Spec.Group ++ "/" ++ version
              Kind := crdObject.Spec.Names.Kind
              Metadata := { Name := name, Labels := some [(labelKey, broker)] }
              Spec := spec }, none)

end kubernetes

/-! ## `pkg/manifest`: merge-insert -/

namespace manifest

open kubernetes

/-- The function `matchObjects`. -/
def matchObjects (a b : Object) : Bool :=
  (a.APIVersion == b.APIVersion) &&
    (a.Kind == b.Kind) &&
    (a.Metadata.Name == b.Metadata.Name)

/-- The struct `Manifest`.  A nil `Objects` slice is the empty list. -/
structure Manifest where
  Path : String
  Objects : List Object
  deriving DecidableEq

/-- The function `New`. -/
def New (path : String) : Manifest :=
  { Path := path, Objects := [] }

/-- The `for i, o := range m.Objects` loop of `Manifest.Add` followed by the append
after it: `objects` is `m.Objects`, `i` the index reached and the list argument the
entries from index `i` on.  The result is the new `m.Objects` and the two values
returned. -/
def Manifest.Add.loop (objects : List Object) (object : Object) :
    Nat → List Object → List Object × Bool × Option Error
  | _, [] => (objects ++ [object], true, none)
  | i, o :: rest =>
    if matchObjects object o then
      if !(reflect.DeepEqual o object) then
        (objects.set i object, true, none)
      else
        (objects, false, none)
    else
      Manifest.Add.loop objects object (i + 1) rest

/-- The method `(*Manifest).Add`: the manifest after the call, `changed`, and the error. -/
def Manifest.Add (m : Manifest) (object : Object) : Manifest × Bool × Option Error :=
  let r := Manifest.Add.loop m.Objects object 0 m.Objects
  ({ m with Objects := r.1 }, r.2.1, r.2.2)

/-- The identity triple `(apiVersion, kind, metadata.name)` of an object. -/
def identityTriple (o : Object) : String × String × String :=
  (o.APIVersion, o.Kind, o.Metadata.Name)

/-- The manifest reached from `m` by calling `Add` with each object of `xs` in turn. -/
def addAll (m : Manifest) (xs : List Object) : Manifest :=
  xs.foldl (fun acc x => (acc.Add x).1) m

end manifest

/-! ## Files and the YAML library

`manifest.go` reaches the file system through `os.Open`, `os.OpenFile`, `Stat`,
`ReadDir`, `WriteString`, `Write` and `Close`, and the YAML library through
`yaml.Marshal` and `yaml.NewDecoder(..).Decode`.  A file system maps a path to a
file's bytes or a directory's entries.  The library is a parameter: `Marshal` is
`yaml.Marshal` on an `Object`, and `Documents` gives, for the bytes of a stream, what
each successive `Decode(&o)` call leaves in `o` and returns, up to the end of the
stream. -/

/-- The bytes of a Go string. -/
def bytesOf (s : String) : List UInt8 :=
  s.data.flatMap String.utf8EncodeChar

namespace os

/-- An entry returned by `ReadDir`: its `Name()` and `IsDir()`. -/
structure DirEntry where
  Name : String
  IsDir : Bool
  deriving DecidableEq

/-- What a path names. -/
inductive Node where
  | file (content : List UInt8)
  | dir (entries : List DirEntry)
  deriving DecidableEq

/-- A file system. -/
abbrev FS := String → Option Node

/-- An open file: its path and the offset of the next write. -/
structure File where
  path : String
  offset : Nat
  deriving DecidableEq

/-- The file system with `path` naming `node`. -/
def FS.put (fs : FS) (path : String) (node : Node) : FS :=
  fun q => if q = path then some node else fs q

/-- The call `os.OpenFile(path, os.O_CREATE|os.O_WRONLY, 0644)`: an existing file is
opened as it is, with the offset at its start; a missing one is created empty; a
directory cannot be opened for writing. -/
def OpenFile (fs : FS) (path : String) : FS × File × Option Error :=
  match fs path with
  | some (Node.dir _) => (fs, ⟨path, 0⟩, some (Error.msg "open: is a directory"))
  | some (Node.file _) => (fs, ⟨path, 0⟩, none)
  | none => (fs.put path (Node.file []), ⟨path, 0⟩, none)

/-- The bytes of a file after `data` is written at `offset`: the bytes written over
are replaced, the bytes after them are kept. -/
def writeAt (content : List UInt8) (offset : Nat) (data : List UInt8) : List UInt8 :=
  content.take offset ++ data ++ content.drop (offset + data.length)

/-- The method `(*File).Write` (and `WriteString` on the bytes of the string), on a
file opened by `OpenFile`; the write itself does not fail. -/
def File.Write (fs : FS) (f : File) (data : List UInt8) : FS × File :=
  match fs f.path with
  | some (Node.file content) =>
    (fs.put f.path (Node.file (writeAt content f.offset data)),
      { f with offset := f.offset + data.length })
  | _ => (fs, f)

end os

namespace yaml

/-- What one `Decode(&o)` call on a document of the stream leaves in `o` (`none` is
the nil pointer) and the error it returns. -/
structure DecodeResult where
  o : Option kubernetes.Object
  err : Option Error
  deriving DecidableEq

/-- The YAML library as `manifest.go` uses it. -/
structure Library where
  Marshal : kubernetes.Object → List UInt8 × Option Error
  Documents : List UInt8 → List DecodeResult

/-- A `*yaml.Decoder`: the documents of its stream not yet decoded. -/
structure Decoder where
  pending : List DecodeResult
  deriving DecidableEq

/-- The call `yaml.NewDecoder(file)` on a reader of `content`. -/
def NewDecoder (lib : Library) (content : List UInt8) : Decoder :=
  ⟨lib.Documents content⟩

/-- The call `decoder.Decode(&o)`: the value of `o` after the call, the error, and
the decoder after it.  At the end of the stream `o` is left as it was and the error
is `io.EOF`. -/
def Decoder.Decode (d : Decoder) (o : Option kubernetes.Object) :
    Option kubernetes.Object × Option Error × Decoder :=
  match d.pending with
  | [] => (o, some Error.EOF, d)
  | r :: rest => (r.o, r.err, ⟨rest⟩)

end yaml

/-! ## `pkg/manifest`: load and save -/

namespace manifest

open kubernetes

/-- The separator line written before each document. -/
def separator : List UInt8 := bytesOf "---\n"

/-- The value `new(kubernetes.Object)` points to. -/
def zeroObject : Object :=
  { APIVersion := "", Kind := "", Metadata := { Name := "", Labels := none },
    Spec := MapValue.nil }

/-- The `for` loop of `readFile`, run for at most `fuel` iterations (`none` when they
do not suffice), with `result` the objects collected so far. -/
def readFile.loop : Nat → yaml.Decoder → List Object → Option (List Object × Option Error)
  | 0, _, _ => none
  | fuel + 1, decoder, result =>
    match decoder.Decode (some zeroObject) with
    | (none, _, decoder1) => readFile.loop fuel decoder1 result
    | (some o, err, decoder1) =>
      if err = some Error.EOF then
        some (result, none)
      else
        match err with
        | some e => some ([], some e)
        | none => readFile.loop fuel decoder1 (result ++ [o])

/-- The function `readFile` on a reader of `content`. -/
def readFile (lib : yaml.Library) (fuel : Nat) (content : List UInt8) :
    Option (List Object × Option Error) :=
  readFile.loop fuel (yaml.NewDecoder lib content) []

/-- The `for _, d := range entries` loop of `parseYAML`; `parse` is the recursive call
and `result` the objects collected so far. -/
def parseYAML.entries (parse : String → Option (List Object × Option Error))
    (path : String) : List os.DirEntry → List Object → Option (List Object × Option Error)
  | [], result => some (result, none)
  | d :: rest, result =>
    if d.IsDir then
      parseYAML.entries parse path rest result
    else
      match parse (path ++ "/" ++ d.Name) with
      | none => none
      | some (_, some err) => some ([], some err)
      | some (objects, none) => parseYAML.entries parse path rest (result ++ objects)

/-- The function `parseYAML`; `fuel` bounds the depth of the recursion and the
iterations of each `readFile` (`none` when it does not suffice). -/
def parseYAML (lib : yaml.Library) : Nat → os.FS → String → Option (List Object × Option Error)
  | 0, _, _ => none
  | fuel + 1, fs, path =>
    match fs path with
    | none => some ([], some (Error.msg "open: no such file or directory"))
    | some (os.Node.file content) => readFile lib (fuel + 1) content
    | some (os.Node.dir entries) =>
      parseYAML.entries (fun p => parseYAML lib fuel fs p) path entries []

/-- The method `(*Manifest).Read`: the manifest after the call and the error. -/
def Manifest.Read (lib : yaml.Library) (fuel : Nat) (fs : os.FS) (m : Manifest) :
    Option (Manifest × Option Error) :=
  match parseYAML lib fuel fs m.Path with
  | none => none
  | some (_, some err) => some (m, some err)
  | some (o, none) => some ({ m with Objects := o }, none)

/-- The `for _, object := range m.Objects` loop of `Manifest.Write` and the return
after it: the file system after the writes and the error. -/
def Manifest.Write.loop (lib : yaml.Library) :
    os.FS → os.File → List Object → os.FS × Option Error
  | fs, _, [] => (fs, none)
  | fs, f, object :: rest =>
    match lib.Marshal object with
    | (_, some err) => (fs, some err)
    | (body, none) =>
      let (fs1, f1) := f.Write fs separator
      let (fs2, f2) := f1.Write fs1 body
      Manifest.Write.loop lib fs2 f2 rest

/-- The method `(*Manifest).Write`: the file system after the call and the error. -/
def Manifest.Write (lib : yaml.Library) (fs : os.FS) (m : Manifest) : os.FS × Option Error :=
  match os.OpenFile fs m.Path with
  | (fs1, _, some err) => (fs1, some err)
  | (fs1, f, none) => Manifest.Write.loop lib fs1 f m.Objects

/-- Whether two object lists have the same length and, position by position, objects
that `reflect.DeepEqual` accepts. -/
def structurallyEqual : List Object → List Object → Bool
  | [], [] => true
  | a :: as, b :: bs => reflect.DeepEqual a b && structurallyEqual as bs
  | _, _ => false

/-- The bytes `Write` sends to the file for `objects`: for each object, in order, the
separator line and then its encoding. -/
def encodeAll (lib : yaml.Library) (objects : List Object) : List UInt8 :=
  objects.flatMap (fun o => separator ++ (lib.Marshal o).1)

end manifest

/-! ## `cmd/create`: flag extraction -/

namespace create

/-- The function `strings.HasPrefix`. -/
def HasPrefix (s p : String) : Bool :=
  p.data.isPrefixOf s.data

/-- The function `strings.Split` for a separator of one character, on characters. -/
def Split.chars (sep : Char) : List Char → List (List Char)
  | [] => [[]]
  | c :: cs =>
    if c = sep then
      [] :: Split.chars sep cs
    else
      match Split.chars sep cs with
      | [] => [[c]]
      | part :: parts => (c :: part) :: parts

/-- The function `strings.Split` for a separator of one character. -/
def Split (s : String) (sep : Char) : List String :=
  (Split.chars sep s.data).map String.mk

/-- The statement `args = append(args[:k-1], args[k+1:]...)`; `none` is the panic of
a slice expression whose bounds are out of range. -/
def removeAt (args : List String) (k : Nat) : Option (List String) :=
  if k = 0 then none
  else if args.length < k + 1 then none
  else some (args.take (k - 1) ++ args.drop (k + 1))

/-- The `for k := 0; k < len(args); k++` loop of `parameterFromArgs` and the return
after it: `args` is the argument slice, `k` the index reached and the list argument
the elements from index `k` on. -/
def parameterFromArgs.loop (parameter : String) (args : List String) :
    Nat → List String → Option (String × List String)
  | _, [] => some ("", args)
  | k, a :: rest =>
    if HasPrefix a ("--" ++ parameter) then
      let kv := Split a '='
      if kv.length = 2 then
        (removeAt args k).map (fun r => (kv.getD 1 "", r))
      else
        match args[k + 1]? with
        | some next =>
          if !(HasPrefix next "--") then
            (removeAt args (k + 1)).map (fun r => (next, r))
          else
            (removeAt args k).map (fun r => ("", r))
        | none => (removeAt args k).map (fun r => ("", r))
    else
      parameterFromArgs.loop parameter args (k + 1) rest

/-- The function `parameterFromArgs`; `none` is a run-time panic. -/
def parameterFromArgs (parameter : String) (args : List String) :
    Option (String × List String) :=
  parameterFromArgs.loop parameter args 0 args

end create

/-! ## Concrete inputs

The inputs at which the properties below are evaluated. -/

namespace fixtures

open kubernetes manifest

/-- An object named `name` of kind `K` in `v1`, with empty labels and the given spec. -/
def object (name : String) (spec : MapValue) : Object :=
  { APIVersion := "v1", Kind := "K", Metadata := { Name := name, Labels := some [] },
    Spec := spec }

/-- The object `a`, with an empty spec. -/
def objA : Object := object "a" (MapValue.mk 1 ValueEntries.nil)

/-- The object `b`, with an empty spec. -/
def objB : Object := object "b" (MapValue.mk 2 ValueEntries.nil)

/-- The object `c`, with an empty spec. -/
def objC : Object := object "c" (MapValue.mk 3 ValueEntries.nil)

/-- The object `a` with the spec `size: 3`. -/
def objA2 : Object :=
  object "a" (MapValue.mk 4 (ValueEntries.cons "size" (Value.int IntKind.int 3) ValueEntries.nil))

/-- The object `a` with the spec `x: 0.0`. -/
def objZero : Object :=
  object "a" (MapValue.mk 5 (ValueEntries.cons "x" (Value.float64 0) ValueEntries.nil))

/-- The object `a` with the spec `x: -0.0`, in a map of its own. -/
def objNegZero : Object :=
  object "a" (MapValue.mk 6 (ValueEntries.cons "x" (Value.float64 (2 ^ 63)) ValueEntries.nil))

/-- The object `a` with the spec `x: NaN`. -/
def objNaN : Object :=
  object "a" (MapValue.mk 7
    (ValueEntries.cons "x" (Value.float64 0x7FF8000000000001) ValueEntries.nil))

/-- The object `a` with the same spec `x: NaN`, in a map of its own. -/
def objNaN2 : Object :=
  object "a" (MapValue.mk 8
    (ValueEntries.cons "x" (Value.float64 0x7FF8000000000001) ValueEntries.nil))

/-- The object `a` with the spec `size: 3` where `3` is an `int64`. -/
def objA2Int64 : Object :=
  object "a" (MapValue.mk 9
    (ValueEntries.cons "size" (Value.int IntKind.int64 3) ValueEntries.nil))

/-- The object `a` with the spec `items: []`, an empty slice that is not nil. -/
def objEmptyItems : Object :=
  object "a" (MapValue.mk 10
    (ValueEntries.cons "items" (Value.slice (SliceValue.mk 11 ValueList.nil)) ValueEntries.nil))

/-- The object `a` with the spec `items` holding a nil slice. -/
def objNilItems : Object :=
  object "a" (MapValue.mk 12
    (ValueEntries.cons "items" (Value.slice SliceValue.nil) ValueEntries.nil))

/-- The object `a` as decoded from its document: an empty spec in a map of its own. -/
def decA : Object := object "a" (MapValue.mk 101 ValueEntries.nil)

/-- The object `b` as decoded from its document: an empty spec in a map of its own. -/
def decB : Object := object "b" (MapValue.mk 102 ValueEntries.nil)

/-- Whether a spec has the key `k`. -/
def hasKey (k : String) : MapValue → Bool
  | MapValue.nil => false
  | MapValue.mk _ entries => (reflect.MapIndex k entries).isSome

/-- A schema whose raw form is the list of its required fields: `Process` returns the
spec as it is, `Validate` reports the first required field that is missing. -/
def requiredSchema (required : List String) : openapi.Schema :=
  { Process := fun spec => (spec, none)
    Validate := fun spec =>
      match required.find? (fun k => !(hasKey k spec)) with
      | some k => some (Error.msg ("missing required field " ++ k))
      | none => none }

/-- An instance of `openapi.GetSchema` over lists of required fields. -/
def GetSchema (required : List String) : Option openapi.Schema × Option Error :=
  (some (requiredSchema required), none)

/-- A version named `name` that requires the field `foo`. -/
def version (name : String) (served : Bool) : crd.Version (List String) :=
  { Name := name, Served := served,
    Schema := { OpenAPIV3Schema := { Properties := { Spec := ["foo"] } } } }

/-- A definition with the versions `v1` (not served), `v2` and `v3` (served). -/
def definition : crd.CRD (List String) :=
  { Spec := { Group := "example.io", Names := { Kind := "K" },
              Versions := [version "v1" false, version "v2" true, version "v3" true] } }

/-- An instance of `crd.GetResourceCRD` that knows the one definition above. -/
def GetResourceCRD (_resource _crdFile : String) : crd.CRD (List String) × Option Error :=
  (definition, none)

/-- The document `yaml.Marshal` writes for `objA`. -/
def encA : List UInt8 :=
  bytesOf "apiVersion: v1\nkind: K\nmetadata:\n    name: a\n    labels: \x7b\x7d\nspec: \x7b\x7d\n"

/-- The document `yaml.Marshal` writes for `objB`. -/
def encB : List UInt8 :=
  bytesOf "apiVersion: v1\nkind: K\nmetadata:\n    name: b\n    labels: \x7b\x7d\nspec: \x7b\x7d\n"

/-- A stream with an empty document between two separators. -/
def blankStream : List UInt8 :=
  bytesOf "---\n\n---\napiVersion: v1\n"

/-- The YAML library on the objects and streams above. -/
def yamlLib : yaml.Library :=
  { Marshal := fun o =>
      if o = objA then (encA, none)
      else if o = objB then (encB, none)
      else ([], some (Error.msg "not in the table"))
    Documents := fun content =>
      if content = separator ++ encA then [⟨some decA, none⟩]
      else if content = separator ++ encA ++ (separator ++ encB) then
        [⟨some decA, none⟩, ⟨some decB, none⟩]
      else if content = blankStream then
        [⟨none, none⟩, ⟨some { zeroObject with APIVersion := "v1" }, none⟩]
      else [] }

/-- A file system whose `manifest.yaml` holds the documents of `objA` and `objB`. -/
def savedFS : os.FS :=
  fun q => if q = "manifest.yaml" then
    some (os.Node.file (separator ++ encA ++ (separator ++ encB))) else none

end fixtures

/-! ## Properties of merge-insert -/

namespace manifest

open kubernetes

theorem matchObjects_iff (a b : Object) :
    matchObjects a b = true ↔ identityTriple a = identityTriple b := by
  simp [matchObjects, identityTriple, and_assoc]

theorem matchObjects_self (a : Object) : matchObjects a a = true := by
  simp [matchObjects]

/-- A map is deeply equal to itself: it is compared with the same map. -/
theorem mapEqual_self (m : MapValue) : reflect.mapEqual m m = true := by
  cases m with
  | nil => simp [reflect.mapEqual]
  | mk p xs => simp [reflect.mapEqual]

/-- An object is deeply equal to a copy of itself, whose maps are the same maps. -/
theorem DeepEqual_self (x : Object) : reflect.DeepEqual x x = true := by
  simp [reflect.DeepEqual, mapEqual_self]

/-- When no remaining entry matches, the loop falls through to the append. -/
theorem loop_no_match (objects : List Object) (x : Object) :
    ∀ (rest : List Object) (i : Nat), (∀ o ∈ rest, matchObjects x o = false) →
      Manifest.Add.loop objects x i rest = (objects ++ [x], true, none) := by
  intro rest
  induction rest with
  | nil => intro i _; rfl
  | cons o rest ih =>
    intro i h
    have ho : matchObjects x o = false := h o (List.mem_cons_self _ _)
    simp only [Manifest.Add.loop, ho, Bool.false_eq_true, if_false]
    exact ih (i + 1) (fun y hy => h y (List.mem_cons_of_mem _ hy))

/-- When the first matching entry is `o`, after the non-matching entries `a`, the
loop stops there. -/
theorem loop_first_match (objects : List Object) (x o : Object) (b : List Object) :
    ∀ (a : List Object) (i : Nat), (∀ y ∈ a, matchObjects x y = false) →
      matchObjects x o = true →
      Manifest.Add.loop objects x i (a ++ o :: b) =
        if reflect.DeepEqual o x then (objects, false, none)
        else (objects.set (i + a.length) x, true, none) := by
  intro a
  induction a with
  | nil =>
    intro i _ ho
    simp only [List.nil_append, Manifest.Add.loop, ho, if_true, List.length_nil, Nat.add_zero]
    cases hox : reflect.DeepEqual o x <;> simp
  | cons y a ih =>
    intro i h ho
    have hy : matchObjects x y = false := h y (List.mem_cons_self _ _)
    show Manifest.Add.loop objects x i (y :: (a ++ o :: b)) = _
    rw [Manifest.Add.loop]
    simp only [hy, Bool.false_eq_true, if_false]
    rw [ih (i + 1) (fun z hz => h z (List.mem_cons_of_mem _ hz)) ho]
    simp only [List.length_cons]
    have : i + 1 + a.length = i + (a.length + 1) := by omega
    rw [this]

/-- Either no entry satisfies `p`, or the list splits at the first one that does. -/
theorem split_first (p : Object → Bool) :
    ∀ l : List Object, (∀ o ∈ l, p o = false) ∨
      ∃ a o b, l = a ++ o :: b ∧ (∀ y ∈ a, p y = false) ∧ p o = true := by
  intro l
  induction l with
  | nil => left; intro o ho; cases ho
  | cons x l ih =>
    by_cases hx : p x = true
    · right; exact ⟨[], x, l, rfl, fun y hy => absurd hy (List.not_mem_nil y), hx⟩
    · have hx' : p x = false := by simpa using hx
      rcases ih with h | ⟨a, o, b, hl, ha, ho⟩
      · left
        intro o ho
        rcases List.mem_cons.mp ho with rfl | h'
        · exact hx'
        · exact h o h'
      · right
        refine ⟨x :: a, o, b, by simp [hl], ?_, ho⟩
        intro y hy
        rcases List.mem_cons.mp hy with rfl | h'
        · exact hx'
        · exact ha y h'

theorem Add_no_match (m : Manifest) (x : Object)
    (h : ∀ o ∈ m.Objects, matchObjects x o = false) :
    m.Add x = ({ m with Objects := m.Objects ++ [x] }, true, none) := by
  simp only [Manifest.Add, loop_no_match m.Objects x m.Objects 0 h]

theorem Add_first_match (m : Manifest) (x o : Object) (a b : List Object)
    (hm : m.Objects = a ++ o :: b) (ha : ∀ y ∈ a, matchObjects x y = false)
    (ho : matchObjects x o = true) :
    m.Add x = if reflect.DeepEqual o x then (m, false, none)
      else ({ m with Objects := a ++ x :: b }, true, none) := by
  have hl := loop_first_match m.Objects x o b a 0 ha ho
  rw [← hm] at hl
  simp only [Manifest.Add, hl]
  cases hox : reflect.DeepEqual o x
  · simp [hm]
  · simp

/-- The identity triples held by the manifest after `Add`: unchanged when some entry
matches the candidate, extended by the candidate's triple otherwise. -/
theorem Add_identities (m : Manifest) (x : Object) :
    ((m.Add x).1.Objects.map identityTriple = m.Objects.map identityTriple ∧
        identityTriple x ∈ m.Objects.map identityTriple) ∨
      ((m.Add x).1.Objects.map identityTriple =
          m.Objects.map identityTriple ++ [identityTriple x] ∧
        identityTriple x ∉ m.Objects.map identityTriple) := by
  rcases split_first (matchObjects x) m.Objects with h | ⟨a, o, b, hm, ha, ho⟩
  · right
    rw [Add_no_match m x h]
    refine ⟨by simp, ?_⟩
    intro hmem
    rcases List.mem_map.mp hmem with ⟨o, ho, hid⟩
    have := (matchObjects_iff x o).mpr hid.symm
    rw [h o ho] at this
    exact Bool.false_ne_true this
  · left
    have hid : identityTriple x = identityTriple o := (matchObjects_iff x o).mp ho
    rw [Add_first_match m x o a b hm ha ho]
    constructor
    · cases hox : reflect.DeepEqual o x
      · simp [hm, hid]
      · simp
    · rw [hm]
      exact List.mem_map.mpr ⟨o, by simp, hid.symm⟩

theorem Add_nodup (m : Manifest) (x : Object)
    (h : (m.Objects.map identityTriple).Nodup) :
    ((m.Add x).1.Objects.map identityTriple).Nodup := by
  rcases Add_identities m x with ⟨he, _⟩ | ⟨he, hn⟩
  · rw [he]; exact h
  · rw [he]
    exact List.Nodup.append h (List.nodup_singleton _)
      (by
        intro t ht ht1
        rw [List.mem_singleton] at ht1
        exact hn (ht1 ▸ ht))

theorem addAll_nodup (xs : List Object) :
    ∀ m : Manifest, (m.Objects.map identityTriple).Nodup →
      ((addAll m xs).Objects.map identityTriple).Nodup := by
  induction xs with
  | nil => intro m h; exact h
  | cons x xs ih =>
    intro m h
    exact ih (m.Add x).1 (Add_nodup m x h)

/-- C1 (merge idempotence): calling `Add x` twice in a row returns `changed = false`
and no error on the second call, and the second call leaves the object list as the
first call left it. -/
theorem Add_idempotent (m : Manifest) (x : Object) :
    ((m.Add x).1.Add x).2.1 = false ∧
      ((m.Add x).1.Add x).2.2 = none ∧
      ((m.Add x).1.Add x).1.Objects = (m.Add x).1.Objects := by
  have key : ∀ m1 : Manifest, ∀ a b : List Object, m1.Objects = a ++ x :: b →
      (∀ y ∈ a, matchObjects x y = false) → m1.Add x = (m1, false, none) := by
    intro m1 a b hm1 ha
    rw [Add_first_match m1 x x a b hm1 ha (matchObjects_self x)]
    simp [DeepEqual_self]
  rcases split_first (matchObjects x) m.Objects with h | ⟨a, o, b, hm, ha, ho⟩
  · rw [Add_no_match m x h]
    rw [key { m with Objects := m.Objects ++ [x] } m.Objects [] rfl h]
    exact ⟨rfl, rfl, rfl⟩
  · rw [Add_first_match m x o a b hm ha ho]
    cases hox : reflect.DeepEqual o x
    · simp only [Bool.false_eq_true, if_false]
      rw [key { m with Objects := a ++ x :: b } a b rfl ha]
      exact ⟨rfl, rfl, rfl⟩
    · simp only [if_true]
      rw [Add_first_match m x o a b hm ha ho, hox]
      exact ⟨rfl, rfl, rfl⟩

/-- C2 (merge replace): when the first entry with the candidate's identity triple is at
position `i` and `reflect.DeepEqual` finds it different from the candidate `x2`,
`Add x2` returns `changed = true`, keeps the length of the list, stores `x2` at
position `i` and leaves every other position as it was. -/
theorem Add_replace (m : Manifest) (x2 o : Object) (i : Nat)
    (hi : m.Objects[i]? = some o)
    (hid : identityTriple o = identityTriple x2)
    (hfirst : ∀ j, j < i → ∀ y, m.Objects[j]? = some y →
      identityTriple y ≠ identityTriple x2)
    (hne : reflect.DeepEqual o x2 = false) :
    (m.Add x2).2.1 = true ∧
      (m.Add x2).1.Objects.length = m.Objects.length ∧
      (m.Add x2).1.Objects[i]? = some x2 ∧
      ∀ j, j ≠ i → (m.Add x2).1.Objects[j]? = m.Objects[j]? := by
  obtain ⟨hlt, hget⟩ := List.getElem?_eq_some.mp hi
  have hm : m.Objects = m.Objects.take i ++ o :: m.Objects.drop (i + 1) := by
    conv_lhs => rw [← List.take_append_drop i m.Objects]
    rw [List.drop_eq_getElem_cons hlt, hget]
  have hlen : (m.Objects.take i).length = i := by
    simp [List.length_take]; omega
  have ha : ∀ y ∈ m.Objects.take i, matchObjects x2 y = false := by
    intro y hy
    obtain ⟨j, hj, hjy⟩ := List.mem_iff_getElem.mp hy
    have hji : j < i := by rw [hlen] at hj; exact hj
    have hy2 : m.Objects[j]? = some y := by
      rw [← hjy, List.getElem_take]
      exact List.getElem?_eq_getElem _
    have hnid := hfirst j hji y hy2
    cases hmy : matchObjects x2 y with
    | false => rfl
    | true => exact absurd ((matchObjects_iff x2 y).mp hmy).symm hnid
  have ho : matchObjects x2 o = true := (matchObjects_iff x2 o).mpr hid.symm
  rw [Add_first_match m x2 o _ _ hm ha ho]
  simp only [hne, Bool.false_eq_true, if_false]
  refine ⟨trivial, ?_, ?_, ?_⟩
  · conv_rhs => rw [hm]
    simp
  · show (m.Objects.take i ++ x2 :: m.Objects.drop (i + 1))[i]? = some x2
    rw [List.getElem?_append_right (by omega), hlen]
    simp
  · intro j hj
    show (m.Objects.take i ++ x2 :: m.Objects.drop (i + 1))[j]? = m.Objects[j]?
    conv_rhs => rw [hm]
    rcases Nat.lt_or_gt_of_ne hj with hlt2 | hgt
    · rw [List.getElem?_append_left (by omega), List.getElem?_append_left (by omega)]
    · rw [List.getElem?_append_right (by omega), List.getElem?_append_right (by omega), hlen]
      obtain ⟨k, hk⟩ : ∃ k, j - i = k + 1 := ⟨j - i - 1, by omega⟩
      rw [hk]
      simp

/-- C3 (merge append): when no entry has the candidate's identity triple, `Add`
returns `changed = true` and no error, and the list becomes the original list
followed by the candidate. -/
theorem Add_append (m : Manifest) (candidate : Object)
    (h : ∀ o ∈ m.Objects, identityTriple o ≠ identityTriple candidate) :
    (m.Add candidate).2.1 = true ∧
      (m.Add candidate).2.2 = none ∧
      (m.Add candidate).1.Objects = m.Objects ++ [candidate] := by
  have h2 : ∀ o ∈ m.Objects, matchObjects candidate o = false := by
    intro o ho
    cases hmo : matchObjects candidate o with
    | false => rfl
    | true => exact absurd ((matchObjects_iff candidate o).mp hmo).symm (h o ho)
  rw [Add_no_match m candidate h2]
  exact ⟨rfl, rfl, rfl⟩

/-- C4 (identity uniqueness): `Add` keeps the identity triples of a manifest pairwise
distinct, and so every manifest built from `New path` by a sequence of `Add` calls
holds at most one object per identity triple. -/
theorem Add_preserves_unique_identity (m : Manifest) (candidate : Object)
    (path : String) (xs : List Object) :
    ((m.Objects.map identityTriple).Nodup →
        ((m.Add candidate).1.Objects.map identityTriple).Nodup) ∧
      ((addAll (New path) xs).Objects.map identityTriple).Nodup :=
  ⟨Add_nodup m candidate, addAll_nodup xs (New path) List.nodup_nil⟩

theorem Add_replace_witness :
    ((addAll (New "manifest.yaml") [fixtures.objB, fixtures.objA]).Add fixtures.objA2).2.1
        = true ∧
      ((addAll (New "manifest.yaml") [fixtures.objB, fixtures.objA]).Add
        fixtures.objA2).1.Objects.length = 2 ∧
      ((addAll (New "manifest.yaml") [fixtures.objB, fixtures.objA]).Add
        fixtures.objA2).1.Objects[1]? = some fixtures.objA2 ∧
      ∀ j, j ≠ 1 →
        ((addAll (New "manifest.yaml") [fixtures.objB, fixtures.objA]).Add
          fixtures.objA2).1.Objects[j]? =
        (addAll (New "manifest.yaml") [fixtures.objB, fixtures.objA]).Objects[j]? :=
  Add_replace (addAll (New "manifest.yaml") [fixtures.objB, fixtures.objA])
    fixtures.objA2 fixtures.objA 1 (by decide) (by decide)
    (by
      intro j hj y hy
      have hj0 : j = 0 := by omega
      subst hj0
      have hyB : y = fixtures.objB := by
        have h0 : (addAll (New "manifest.yaml") [fixtures.objB, fixtures.objA]).Objects[0]?
            = some fixtures.objB := by decide
        rw [h0] at hy
        exact (Option.some.inj hy).symm
      subst hyB
      decide)
    (by decide)

theorem Add_preserves_unique_identity_witness :
    (((addAll (New "manifest.yaml") [fixtures.objB, fixtures.objA]).Add
        fixtures.objA2).1.Objects.map identityTriple).Nodup ∧
      ((addAll (New "manifest.yaml")
        [fixtures.objA, fixtures.objB, fixtures.objA2]).Objects.map identityTriple).Nodup :=
  ⟨(Add_preserves_unique_identity (addAll (New "manifest.yaml") [fixtures.objB, fixtures.objA])
      fixtures.objA2 "manifest.yaml" []).1 (by decide),
    (Add_preserves_unique_identity (New "manifest.yaml") fixtures.objA2 "manifest.yaml"
      [fixtures.objA, fixtures.objB, fixtures.objA2]).2⟩

/-- Adding `a` to the manifest that holds `b` and `c` appends it after them. -/
theorem Add_append_witness :
    ((addAll (New "manifest.yaml") [fixtures.objB, fixtures.objC]).Add fixtures.objA).2.1
        = true ∧
      ((addAll (New "manifest.yaml") [fixtures.objB, fixtures.objC]).Add fixtures.objA).2.2
        = none ∧
      ((addAll (New "manifest.yaml") [fixtures.objB, fixtures.objC]).Add
        fixtures.objA).1.Objects = [fixtures.objB, fixtures.objC, fixtures.objA] :=
  Add_append (addAll (New "manifest.yaml") [fixtures.objB, fixtures.objC]) fixtures.objA
    (by decide)

/-- The values `0.0` and `-0.0` are equal for `reflect.DeepEqual`: adding the object with
`x: -0.0` over the one with `x: 0.0` changes nothing. -/
theorem Add_signed_zero_unchanged :
    (addAll (New "manifest.yaml") [fixtures.objB, fixtures.objZero]).Add fixtures.objNegZero =
      (addAll (New "manifest.yaml") [fixtures.objB, fixtures.objZero], false, none) := by
  decide

/-- A NaN differs from itself for `reflect.DeepEqual` unless it is held in the same map:
adding the object with `x: NaN` again changes nothing, adding one with `x: NaN` in a
map of its own replaces the entry. -/
theorem Add_NaN :
    ((addAll (New "manifest.yaml") [fixtures.objNaN]).Add fixtures.objNaN).2.1 = false ∧
      (addAll (New "manifest.yaml") [fixtures.objNaN]).Add fixtures.objNaN2 =
        ({ Path := "manifest.yaml", Objects := [fixtures.objNaN2] }, true, none) := by
  decide

/-- An `int` and an `int64` of the same value differ for `reflect.DeepEqual`: the entry
is replaced. -/
theorem Add_int64_replaces :
    (addAll (New "manifest.yaml") [fixtures.objA2]).Add fixtures.objA2Int64 =
      ({ Path := "manifest.yaml", Objects := [fixtures.objA2Int64] }, true, none) := by
  decide

/-- A nil slice and an empty slice differ for `reflect.DeepEqual`: the entry is
replaced. -/
theorem Add_nil_slice_replaces :
    (addAll (New "manifest.yaml") [fixtures.objEmptyItems]).Add fixtures.objNilItems =
      ({ Path := "manifest.yaml", Objects := [fixtures.objNilItems] }, true, none) := by
  decide

end manifest

/-! ## Properties of the object builder -/

namespace kubernetes

theorem getObjectCRD_loop_eq {P : Type} (GetSchema : P → Option openapi.Schema × Option Error) :
    ∀ versions : List (crd.Version P),
      getObjectCRD.loop GetSchema versions =
        match versions.find? (fun v => v.Served) with
        | none => (none, "", some (Error.msg "CRD schema not found"))
        | some v =>
          match GetSchema v.Schema.OpenAPIV3Schema.Properties.Spec with
          | (_, some err) => (none, "", some (Error.wrap "CRD schema" err))
          | (schema, none) => (schema, v.Name, none) := by
  intro versions
  induction versions with
  | nil => rfl
  | cons v rest ih =>
    cases hv : v.Served with
    | true => simp [getObjectCRD.loop, List.find?, hv]
    | false => simp [getObjectCRD.loop, List.find?, hv, ih]

/-- C5 (version selection): `getObjectCRD` acts on the first version, in declared
order, whose served flag is true: it returns that version's name with the schema
extracted from it (or the extraction error), and a not-found error with no schema
when no version is served. -/
theorem getObjectCRD_first_served {P : Type}
    (GetSchema : P → Option openapi.Schema × Option Error) (crdObject : crd.CRD P) :
    getObjectCRD GetSchema crdObject =
      match crdObject.Spec.Versions.find? (fun v => v.Served) with
      | none => (none, "", some (Error.msg "CRD schema not found"))
      | some v =>
        match GetSchema v.Schema.OpenAPIV3Schema.Properties.Spec with
        | (_, some err) => (none, "", some (Error.wrap "CRD schema" err))
        | (schema, none) => (schema, v.Name, none) :=
  getObjectCRD_loop_eq GetSchema crdObject.Spec.Versions

/-- On the versions `v1` (not served), `v2`, `v3` (served) the version chosen is `v2`. -/
theorem getObjectCRD_example :
    (getObjectCRD fixtures.GetSchema fixtures.definition).2 = ("v2", none) := by
  rfl

/-- C9 (validation rejection): when the definition lookup, the version selection and
`Process` succeed and `Validate` returns the error `e` on the normalized spec,
`CreateObject` returns no object and an error whose wrapped cause is `e`. -/
theorem CreateObject_validation_error {P : Type}
    (GetResourceCRD : String → String → crd.CRD P × Option Error)
    (GetSchema : P → Option openapi.Schema × Option Error)
    (resource name broker crdFile : String) (spec normalized : MapValue)
    (crdObject : crd.CRD P) (schema : openapi.Schema) (version : String) (e : Error)
    (hcrd : GetResourceCRD resource crdFile = (crdObject, none))
    (hversion : getObjectCRD GetSchema crdObject = (some schema, version, none))
    (hprocess : schema.Process spec = (normalized, none))
    (hvalidate : schema.Validate normalized = some e) :
    CreateObject GetResourceCRD GetSchema resource name broker crdFile spec =
        some (none, some (Error.wrap "CR validation" e)) ∧
      (Error.wrap "CR validation" e).Unwrap = some e := by
  refine ⟨?_, rfl⟩
  simp only [CreateObject, hcrd, hversion, hprocess, hvalidate]

/-- A spec without the required field `foo` is rejected with the schema's error. -/
theorem CreateObject_validation_error_witness :
    CreateObject fixtures.GetResourceCRD fixtures.GetSchema "k" "n" "ctx" "crd.yaml"
        (MapValue.mk 1 ValueEntries.nil) =
        some (none, some (Error.wrap "CR validation"
          (Error.msg "missing required field foo"))) ∧
      (Error.wrap "CR validation" (Error.msg "missing required field foo")).Unwrap =
        some (Error.msg "missing required field foo") :=
  CreateObject_validation_error fixtures.GetResourceCRD fixtures.GetSchema
    "k" "n" "ctx" "crd.yaml" (MapValue.mk 1 ValueEntries.nil) (MapValue.mk 1 ValueEntries.nil)
    fixtures.definition (fixtures.requiredSchema ["foo"]) "v2"
    (Error.msg "missing required field foo") rfl rfl rfl rfl

/-- An object returned by `CreateObject` comes with no error, and its spec passed
`Validate` of the schema of the selected version. -/
theorem CreateObject_object_validated {P : Type}
    (GetResourceCRD : String → String → crd.CRD P × Option Error)
    (GetSchema : P → Option openapi.Schema × Option Error)
    (resource name broker crdFile : String) (spec : MapValue)
    (obj : Object) (err : Option Error)
    (h : CreateObject GetResourceCRD GetSchema resource name broker crdFile spec =
      some (some obj, err)) :
    err = none ∧
      ∃ schema version,
        getObjectCRD GetSchema (GetResourceCRD resource crdFile).1 =
          (some schema, version, none) ∧
        schema.Validate obj.Spec = none := by
  unfold CreateObject at h
  split at h
  · simp at h
  · rename_i crdObject hcrd
    split at h
    · simp at h
    · simp at h
    · rename_i schema version hversion
      split at h
      · simp at h
      · rename_i normalized hprocess
        split at h
        · simp at h
        · rename_i hvalidate
          simp only [Option.some.injEq, Prod.mk.injEq] at h
          obtain ⟨hobj, herr⟩ := h
          refine ⟨herr.symm, schema, version, ?_, ?_⟩
          · rw [hcrd]; exact hversion
          · rw [← hobj]; exact hvalidate

end kubernetes

/-! ## Properties of load and save -/

namespace manifest

open kubernetes

theorem readFile_loop_no_error :
    ∀ (docs : List yaml.DecodeResult) (fuel : Nat) (result : List Object),
      (∀ r ∈ docs, r.err = none) → docs.length < fuel →
      readFile.loop fuel ⟨docs⟩ result = some (result ++ docs.filterMap (fun r => r.o), none) := by
  intro docs
  induction docs with
  | nil =>
    intro fuel result _ hfuel
    obtain ⟨n, rfl⟩ : ∃ n, fuel = n + 1 := ⟨fuel - 1, by simp at hfuel; omega⟩
    simp [readFile.loop, yaml.Decoder.Decode]
  | cons r docs ih =>
    intro fuel result h hfuel
    obtain ⟨n, rfl⟩ : ∃ n, fuel = n + 1 := ⟨fuel - 1, by omega⟩
    have hr : r.err = none := h r (List.mem_cons_self _ _)
    have hrest : ∀ q ∈ docs, q.err = none := fun q hq => h q (List.mem_cons_of_mem _ hq)
    have hlen : docs.length < n := by simp at hfuel; omega
    cases ho : r.o with
    | none =>
      simp only [readFile.loop, yaml.Decoder.Decode, ho, List.filterMap_cons]
      exact ih n result hrest hlen
    | some o =>
      simp only [readFile.loop, yaml.Decoder.Decode, ho, hr, List.filterMap_cons]
      rw [if_neg (by simp), ih n (result ++ [o]) hrest hlen]
      simp

/-- C8 (blank-document tolerance): when every document of the stream decodes without
error, `readFile` returns (given fuel for one iteration per document and one more)
no error and, in document order, the object of each document that did not decode to
nil; a document that decoded to nil adds no object and no error. -/
theorem readFile_skips_empty_documents (lib : yaml.Library) (content : List UInt8)
    (fuel : Nat)
    (hdocs : ∀ r ∈ lib.Documents content, r.err = none)
    (hfuel : (lib.Documents content).length < fuel) :
    readFile lib fuel content =
      some ((lib.Documents content).filterMap (fun r => r.o), none) := by
  have h := readFile_loop_no_error (lib.Documents content) fuel [] hdocs hfuel
  simpa [readFile, yaml.NewDecoder] using h

/-- The stream with an empty document between two separators loads one object. -/
theorem readFile_skips_empty_documents_witness :
    readFile fixtures.yamlLib 3 fixtures.blankStream =
      some ((fixtures.yamlLib.Documents fixtures.blankStream).filterMap (fun r => r.o),
        none) ∧
      ((fixtures.yamlLib.Documents fixtures.blankStream).filterMap (fun r => r.o)).length
        = 1 :=
  ⟨readFile_skips_empty_documents fixtures.yamlLib fixtures.blankStream 3
      (by decide) (by decide), by decide⟩

theorem writeAt_writeAt (c d1 d2 : List UInt8) (off : Nat) (h : off ≤ c.length) :
    os.writeAt (os.writeAt c off d1) (off + d1.length) d2 = os.writeAt c off (d1 ++ d2) := by
  have hA : (c.take off).length = off := by simp [List.length_take]; omega
  have hAd : (c.take off ++ d1).length = off + d1.length := by simp [hA]
  unfold os.writeAt
  have e1 : (c.take off ++ d1 ++ c.drop (off + d1.length)).take (off + d1.length)
      = c.take off ++ d1 := by
    rw [← hAd, List.take_left]
  have e2 : (c.take off ++ d1 ++ c.drop (off + d1.length)).drop (off + d1.length + d2.length)
      = c.drop (off + (d1 ++ d2).length) := by
    have : off + d1.length + d2.length = (c.take off ++ d1).length + d2.length := by
      rw [hAd]
    rw [this, List.drop_append, List.drop_drop]
    congr 1
    simp; omega
  rw [e1, e2]
  simp

theorem writeAt_nil (c : List UInt8) (off : Nat) : os.writeAt c off [] = c := by
  simp [os.writeAt]

theorem encodeAll_append (lib : yaml.Library) (xs ys : List Object) :
    encodeAll lib (xs ++ ys) = encodeAll lib xs ++ encodeAll lib ys := by
  simp [encodeAll]

theorem File_Write_eq (fs : os.FS) (f : os.File) (content data : List UInt8)
    (hf : fs f.path = some (os.Node.file content)) :
    f.Write fs data =
      (fs.put f.path (os.Node.file (os.writeAt content f.offset data)),
        ⟨f.path, f.offset + data.length⟩) := by
  simp only [os.File.Write, hf]

theorem put_same (fs : os.FS) (path : String) (node : os.Node) :
    (fs.put path node) path = some node := by
  simp [os.FS.put]

theorem put_other (fs : os.FS) (path q : String) (node : os.Node) (hq : q ≠ path) :
    (fs.put path node) q = fs q := by
  simp [os.FS.put, hq]

/-- What the write loop leaves: the bytes of `objects` written over the file from the
offset of the handle on, every other path untouched. -/
theorem Write_loop_spec (lib : yaml.Library) :
    ∀ (objects : List Object) (fs : os.FS) (f : os.File) (content : List UInt8),
      fs f.path = some (os.Node.file content) → f.offset ≤ content.length →
      (∀ o ∈ objects, (lib.Marshal o).2 = none) →
      (Manifest.Write.loop lib fs f objects).2 = none ∧
        (Manifest.Write.loop lib fs f objects).1 f.path =
          some (os.Node.file (os.writeAt content f.offset (encodeAll lib objects))) ∧
        ∀ q, q ≠ f.path → (Manifest.Write.loop lib fs f objects).1 q = fs q := by
  intro objects
  induction objects with
  | nil =>
    intro fs f content hf _ _
    simp [Manifest.Write.loop, encodeAll, writeAt_nil, hf]
  | cons o rest ih =>
    intro fs f content hf hoff hm
    have ho : (lib.Marshal o).2 = none := hm o (List.mem_cons_self _ _)
    have hrest : ∀ x ∈ rest, (lib.Marshal x).2 = none :=
      fun x hx => hm x (List.mem_cons_of_mem _ hx)
    obtain ⟨body, hbody⟩ : ∃ body, lib.Marshal o = (body, none) :=
      ⟨(lib.Marshal o).1, by rw [← ho]⟩
    have hw1 := File_Write_eq fs f content separator hf
    have hw2 := File_Write_eq
      (fs.put f.path (os.Node.file (os.writeAt content f.offset separator)))
      ⟨f.path, f.offset + separator.length⟩ _ body (put_same _ _ _)
    rw [writeAt_writeAt content separator body f.offset hoff] at hw2
    have hstep : Manifest.Write.loop lib fs f (o :: rest) =
        Manifest.Write.loop lib
          ((fs.put f.path (os.Node.file (os.writeAt content f.offset separator))).put f.path
            (os.Node.file (os.writeAt content f.offset (separator ++ body))))
          ⟨f.path, f.offset + separator.length + body.length⟩ rest := by
      simp only [Manifest.Write.loop, hbody, hw1, hw2]
    have hlen2 : f.offset + separator.length + body.length ≤
        (os.writeAt content f.offset (separator ++ body)).length := by
      simp [os.writeAt, List.length_take, Nat.min_eq_left hoff]
      omega
    obtain ⟨r1, r2, r3⟩ := ih _ ⟨f.path, f.offset + separator.length + body.length⟩ _
      (put_same _ _ _) hlen2 hrest
    rw [hstep]
    refine ⟨r1, ?_, ?_⟩
    · rw [r2]
      have hoff2 : f.offset + separator.length + body.length =
          f.offset + (separator ++ body).length := by
        simp only [List.length_append]; omega
      simp only [hoff2]
      rw [writeAt_writeAt content (separator ++ body) _ f.offset hoff]
      simp [encodeAll, hbody]
    · intro q hq
      rw [r3 q hq, put_other _ _ _ _ hq, put_other _ _ _ _ hq]

/-- What `Write` leaves in a file that existed before: the bytes written, followed by
the bytes of the old content past the length written. -/
theorem Write_existing_file (lib : yaml.Library) (fs : os.FS) (m : Manifest)
    (old : List UInt8) (hfile : fs m.Path = some (os.Node.file old))
    (hm : ∀ o ∈ m.Objects, (lib.Marshal o).2 = none) :
    (m.Write lib fs).2 = none ∧
      (m.Write lib fs).1 m.Path =
        some (os.Node.file (encodeAll lib m.Objects ++
          old.drop (encodeAll lib m.Objects).length)) := by
  have h := Write_loop_spec lib m.Objects fs ⟨m.Path, 0⟩ old hfile (Nat.zero_le _) hm
  simp only [Manifest.Write, os.OpenFile, hfile]
  refine ⟨h.1, ?_⟩
  have h2 := h.2.1
  simp only [os.writeAt, List.take_zero, List.nil_append, Nat.zero_add] at h2
  exact h2

/-- What `Write` leaves at a path that named nothing before: the bytes written. -/
theorem Write_new_file (lib : yaml.Library) (fs : os.FS) (m : Manifest)
    (hfile : fs m.Path = none)
    (hm : ∀ o ∈ m.Objects, (lib.Marshal o).2 = none) :
    (m.Write lib fs).2 = none ∧
      (m.Write lib fs).1 m.Path = some (os.Node.file (encodeAll lib m.Objects)) := by
  have h := Write_loop_spec lib m.Objects (fs.put m.Path (os.Node.file [])) ⟨m.Path, 0⟩ []
    (put_same _ _ _) (Nat.zero_le _) hm
  simp only [Manifest.Write, os.OpenFile, hfile]
  refine ⟨h.1, ?_⟩
  have h2 := h.2.1
  simp only [os.writeAt, List.take_nil, List.drop_nil, List.nil_append, List.append_nil] at h2
  exact h2

theorem structurallyEqual_length :
    ∀ xs ys : List Object, structurallyEqual xs ys = true → xs.length = ys.length := by
  intro xs
  induction xs with
  | nil =>
    intro ys h
    cases ys with
    | nil => rfl
    | cons y ys => simp [structurallyEqual] at h
  | cons x xs ih =>
    intro ys h
    cases ys with
    | nil => simp [structurallyEqual] at h
    | cons y ys =>
      simp only [structurallyEqual, Bool.and_eq_true] at h
      simp [ih ys h.2]

/-- What `Read` returns from a file whose documents all decode to objects. -/
theorem Read_decoded (lib : yaml.Library) (fs : os.FS) (m : Manifest)
    (content : List UInt8) (decoded : List Object) (fuel : Nat)
    (hfile : fs m.Path = some (os.Node.file content))
    (hdec : lib.Documents content = decoded.map (fun o => ⟨some o, none⟩))
    (hfuel : decoded.length < fuel) :
    m.Read lib fuel fs = some ({ m with Objects := decoded }, none) := by
  obtain ⟨n, rfl⟩ : ∃ n, fuel = n + 1 := ⟨fuel - 1, by omega⟩
  have hloop := readFile_loop_no_error (lib.Documents content) (n + 1) []
    (by rw [hdec]; intro r hr; obtain ⟨o, _, rfl⟩ := List.mem_map.mp hr; rfl)
    (by rw [hdec]; simpa using hfuel)
  have hfm : (lib.Documents content).filterMap (fun r => r.o) = decoded := by
    rw [hdec, List.filterMap_map]
    exact List.filterMap_some _
  rw [hfm] at hloop
  simp only [Manifest.Read, parseYAML, hfile, readFile, yaml.NewDecoder, hloop, List.nil_append]

/-- The round trip where nothing of an older file is left: when the path named nothing,
or a file no longer than the bytes written, and the library decodes the bytes written
to objects `decoded` structurally equal to the objects of the manifest, `Read` after
`Write` returns `decoded`. -/
theorem Write_then_Read_round_trip (lib : yaml.Library) (fs : os.FS) (m : Manifest)
    (decoded : List Object) (fuel : Nat)
    (hfile : fs m.Path = none ∨ ∃ old, fs m.Path = some (os.Node.file old) ∧
      old.length ≤ (encodeAll lib m.Objects).length)
    (hm : ∀ o ∈ m.Objects, (lib.Marshal o).2 = none)
    (hdec : lib.Documents (encodeAll lib m.Objects) =
      decoded.map (fun o => ⟨some o, none⟩))
    (heq : structurallyEqual decoded m.Objects = true)
    (hfuel : m.Objects.length < fuel) :
    (m.Write lib fs).2 = none ∧
      m.Read lib fuel (m.Write lib fs).1 = some ({ m with Objects := decoded }, none) ∧
      structurallyEqual decoded m.Objects = true := by
  have hw : (m.Write lib fs).2 = none ∧
      (m.Write lib fs).1 m.Path = some (os.Node.file (encodeAll lib m.Objects)) := by
    rcases hfile with hnone | ⟨old, hold, hlen⟩
    · exact Write_new_file lib fs m hnone hm
    · have h := Write_existing_file lib fs m old hold hm
      rw [List.drop_eq_nil_of_le hlen, List.append_nil] at h
      exact h
  refine ⟨hw.1, ?_, heq⟩
  exact Read_decoded lib _ m _ decoded fuel hw.2 hdec
    (by rw [structurallyEqual_length decoded m.Objects heq]; exact hfuel)

set_option maxRecDepth 100000

/-- C7 (save over a longer file): `Write` opens the file without truncating it, so
when the old content is longer than the bytes written, a successful `Write` leaves
the bytes written followed by the old content past that length, which is not the
concatenation of the separator lines and encodings alone. -/
theorem Write_keeps_old_tail (lib : yaml.Library) (fs : os.FS) (m : Manifest)
    (old : List UInt8) (hfile : fs m.Path = some (os.Node.file old))
    (hm : ∀ o ∈ m.Objects, (lib.Marshal o).2 = none)
    (hlen : (encodeAll lib m.Objects).length < old.length) :
    (m.Write lib fs).2 = none ∧
      (m.Write lib fs).1 m.Path =
        some (os.Node.file (encodeAll lib m.Objects ++
          old.drop (encodeAll lib m.Objects).length)) ∧
      (m.Write lib fs).1 m.Path ≠ some (os.Node.file (encodeAll lib m.Objects)) := by
  obtain ⟨h1, h2⟩ := Write_existing_file lib fs m old hfile hm
  refine ⟨h1, h2, ?_⟩
  rw [h2]
  intro h
  have h3 := congrArg List.length (os.Node.file.inj (Option.some.inj h))
  simp only [List.length_append, List.length_drop] at h3
  omega

/-- Saving the manifest that holds `objA` over a file that holds the documents of
`objA` and `objB` leaves both documents in the file. -/
theorem Write_keeps_old_tail_witness :
    (((New "manifest.yaml").Add fixtures.objA).1.Write fixtures.yamlLib fixtures.savedFS).2
        = none ∧
      (((New "manifest.yaml").Add fixtures.objA).1.Write fixtures.yamlLib
          fixtures.savedFS).1 "manifest.yaml" =
        some (os.Node.file (separator ++ fixtures.encA ++ (separator ++ fixtures.encB))) ∧
      (((New "manifest.yaml").Add fixtures.objA).1.Write fixtures.yamlLib
          fixtures.savedFS).1 "manifest.yaml" ≠
        some (os.Node.file (separator ++ fixtures.encA)) := by
  have h := Write_keeps_old_tail fixtures.yamlLib fixtures.savedFS
    ((New "manifest.yaml").Add fixtures.objA).1
    (separator ++ fixtures.encA ++ (separator ++ fixtures.encB))
    (by decide) (by decide) (by decide)
  have e1 : encodeAll fixtures.yamlLib ((New "manifest.yaml").Add fixtures.objA).1.Objects
      = separator ++ fixtures.encA := by decide
  have e2 : (separator ++ fixtures.encA ++ (separator ++ fixtures.encB)).drop
      (separator ++ fixtures.encA).length = separator ++ fixtures.encB := by decide
  rw [e1, e2] at h
  exact h

/-- C6 (round trip over an earlier save): when the file holds an earlier save of the
objects of `m` followed by further objects `stale`, and the library decodes that
stream to objects `decoded` structurally equal to those, `Write` succeeds and a `Read`
of the same path then returns `decoded`, which holds the objects of `stale` as well
and is not structurally equal to the objects of `m`. -/
theorem Write_then_Read_returns_stale_objects (lib : yaml.Library) (fs : os.FS)
    (m : Manifest) (stale decoded : List Object) (fuel : Nat)
    (hfile : fs m.Path = some (os.Node.file (encodeAll lib (m.Objects ++ stale))))
    (hm : ∀ o ∈ m.Objects, (lib.Marshal o).2 = none)
    (hdec : lib.Documents (encodeAll lib (m.Objects ++ stale)) =
      decoded.map (fun o => ⟨some o, none⟩))
    (heq : structurallyEqual decoded (m.Objects ++ stale) = true)
    (hstale : stale ≠ [])
    (hfuel : (m.Objects ++ stale).length < fuel) :
    (m.Write lib fs).2 = none ∧
      m.Read lib fuel (m.Write lib fs).1 = some ({ m with Objects := decoded }, none) ∧
      decoded.length = m.Objects.length + stale.length ∧
      structurallyEqual decoded m.Objects = false := by
  obtain ⟨h1, h2⟩ := Write_existing_file lib fs m _ hfile hm
  have hkeep : encodeAll lib m.Objects ++
      (encodeAll lib (m.Objects ++ stale)).drop (encodeAll lib m.Objects).length =
      encodeAll lib (m.Objects ++ stale) := by
    rw [encodeAll_append, List.drop_left]
  rw [hkeep] at h2
  have hlen : decoded.length = m.Objects.length + stale.length := by
    rw [structurallyEqual_length decoded _ heq, List.length_append]
  have hpos : 0 < stale.length := List.length_pos.mpr hstale
  refine ⟨h1, ?_, hlen, ?_⟩
  · exact Read_decoded lib _ m _ decoded fuel h2 hdec
      (by rw [structurallyEqual_length decoded _ heq]; exact hfuel)
  · cases hse : structurallyEqual decoded m.Objects with
    | false => rfl
    | true =>
      have := structurallyEqual_length decoded m.Objects hse
      omega

/-- After `New`, `Add objA` and `Write` at a path that named nothing, `Read` returns the
object decoded from the document of `objA`. -/
theorem Write_then_Read_round_trip_witness :
    (((New "manifest.yaml").Add fixtures.objA).1.Write fixtures.yamlLib (fun _ => none)).2
        = none ∧
      ((New "manifest.yaml").Add fixtures.objA).1.Read fixtures.yamlLib 2
          (((New "manifest.yaml").Add fixtures.objA).1.Write fixtures.yamlLib
            (fun _ => none)).1 =
        some ({ ((New "manifest.yaml").Add fixtures.objA).1 with
          Objects := [fixtures.decA] }, none) ∧
      structurallyEqual [fixtures.decA] ((New "manifest.yaml").Add fixtures.objA).1.Objects
        = true :=
  Write_then_Read_round_trip fixtures.yamlLib (fun _ => none)
    ((New "manifest.yaml").Add fixtures.objA).1 [fixtures.decA] 2
    (Or.inl rfl) (by decide) (by decide) (by decide) (by decide)

/-- After `New`, `Add objA` and `Write` over a file that holds the documents of `objA`
and `objB`, `Read` returns the objects decoded from both documents. -/
theorem Write_then_Read_returns_stale_objects_witness :
    (((New "manifest.yaml").Add fixtures.objA).1.Write fixtures.yamlLib fixtures.savedFS).2
        = none ∧
      ((New "manifest.yaml").Add fixtures.objA).1.Read fixtures.yamlLib 3
          (((New "manifest.yaml").Add fixtures.objA).1.Write fixtures.yamlLib
            fixtures.savedFS).1 =
        some ({ ((New "manifest.yaml").Add fixtures.objA).1 with
          Objects := [fixtures.decA, fixtures.decB] }, none) ∧
      [fixtures.decA, fixtures.decB].length =
        ((New "manifest.yaml").Add fixtures.objA).1.Objects.length + [fixtures.objB].length ∧
      structurallyEqual [fixtures.decA, fixtures.decB]
        ((New "manifest.yaml").Add fixtures.objA).1.Objects = false :=
  Write_then_Read_returns_stale_objects fixtures.yamlLib fixtures.savedFS
    ((New "manifest.yaml").Add fixtures.objA).1 [fixtures.objB]
    [fixtures.decA, fixtures.decB] 3
    (by decide) (by decide) (by decide) (by decide) (by decide) (by decide)

end manifest

/-! ## Properties of flag extraction -/

namespace create

/-- The flag written `--<parameter>=<value>` as the first argument: the slice expression
`args[:k-1]` is evaluated with `k = 0`. -/
theorem parameterFromArgs_first_eq_form (parameter a : String) (rest : List String)
    (hflag : HasPrefix a ("--" ++ parameter) = true)
    (hkv : (Split a '=').length = 2) :
    parameterFromArgs parameter (a :: rest) = none := by
  simp [parameterFromArgs, parameterFromArgs.loop, hflag, hkv, removeAt]

/-- C10 (flag extraction): with the flag written `--source=<value>` the slice expression
`args[:k-1]` is taken at the index of the flag itself: as the first argument it is out
of range, and elsewhere the argument before the flag is removed with it; with the
value in the next argument the flag and its value alone are removed. -/
theorem parameterFromArgs_eq_form :
    parameterFromArgs "source" ["--source=foo"] = none ∧
      parameterFromArgs "source" ["--name", "bar", "--source=foo", "--x", "y"] =
        some ("foo", ["--name", "--x", "y"]) ∧
      parameterFromArgs "source" ["--name", "bar", "--source", "foo", "--x", "y"] =
        some ("foo", ["--name", "bar", "--x", "y"]) := by
  decide

end create

end Tmctl
